import Mathlib

/-!
Shallow embedding of the event-driven state synchronization engine of the
econagents-ibex-tudelft repository, together with proofs of the behavioural
properties stated in its design specification.

Numbers: JSON numeric payload values (prices, quantities, balances) are
modelled as rationals (`Rat`); participant ids, order ids, sequence numbers
and role codes as integers (`Int`).

Payloads: an incoming event carries a JSON object payload.  The reducers of
this system only ever read a fixed finite set of keys from those payloads, so
a payload is modelled as a record with one optional field per key that any
reducer reads (`none` = the key is absent from the JSON object).
-/

/-- Side of a market order.  The design document declares `side`/`type` as an
enum with exactly the two values `bid` and `ask`. -/
inductive OrderSide where
  | bid
  | ask
deriving DecidableEq, Repr

/-- An order record, from `econagents_ibex_tudelft.core.state.market.Order`
(fields `id`, `sender`, `price`, `quantity`, `type`, `condition`, `now`; the
`now` flag defaults to false). -/
structure Order where
  id : Int
  sender : Int
  price : Rat
  quantity : Rat
  type : OrderSide
  condition : Int
  now : Bool := false
deriving DecidableEq, Repr

/-- A trade record, from `econagents_ibex_tudelft.core.state.market.Trade`
(fields `from_id`, `to_id`, `price`, `quantity`, `condition`, optional
`median`). -/
structure Trade where
  from_id : Int
  to_id : Int
  price : Rat
  quantity : Rat
  condition : Int
  median : Option Rat := none
deriving DecidableEq, Repr

/-- The nested object stored under the `order` key of a market event payload:
a partial order patch.  Every field is optional; `add-order` requires all of
them except `now`, `update-order` requires only `id`. -/
structure OrderPatch where
  id : Option Int := none
  sender : Option Int := none
  price : Option Rat := none
  quantity : Option Rat := none
  type : Option OrderSide := none
  condition : Option Int := none
  now : Option Bool := none
deriving DecidableEq, Repr

/-- An event payload: a record with one optional field per JSON key that any
reducer of this engine reads.  `fromId` and `toId` model the payload keys
`from` and `to` of trade events; `recipients` models the key `to` of chat
events (there it is a list of participant ids). -/
structure Payload where
  order : Option OrderPatch := none
  fromId : Option Int := none
  toId : Option Int := none
  price : Option Rat := none
  quantity : Option Rat := none
  condition : Option Int := none
  median : Option Rat := none
  balance : Option Rat := none
  shares : Option Rat := none
  number : Option Int := none
  sender : Option Int := none
  recipients : Option (List Int) := none
  text : Option String := none
  time : Option Int := none
deriving DecidableEq, Repr

/-- Modelled from the spec: the Market Ledger of
`econagents_ibex_tudelft.core.state.market.MarketState` (the module itself is
not part of the provided sources; its tests are).  It owns the mapping
id→Order and the append-only trade list.  The Python mapping is an
insertion-ordered dict; it is modelled as a list of orders with the order id
as the key, where overwriting a key keeps its position (dict semantics). -/
structure MarketState where
  orders : List Order := []
  trades : List Trade := []
deriving DecidableEq, Repr

/-- Parse a full order from an order patch: all fields except `now` are
required; `now` defaults to false. -/
def parseOrder (p : OrderPatch) : Option Order :=
  match p.id, p.sender, p.price, p.quantity, p.type, p.condition with
  | some i, some s, some pr, some q, some ty, some c =>
      some { id := i, sender := s, price := pr, quantity := q, type := ty,
             condition := c, now := p.now.getD false }
  | _, _, _, _, _, _ => none

/-- Insert an order keyed by its id, dict-style: the first entry with the
same id is overwritten in place, otherwise the order is appended. -/
def insertOrder : List Order → Order → List Order
  | [], o => [o]
  | h :: t, o => if h.id = o.id then o :: t else h :: insertOrder t o

/-- Look up the live order with the given id. -/
def lookupOrder (i : Int) : List Order → Option Order
  | [] => none
  | h :: t => if h.id = i then some h else lookupOrder i t

/-- Overwrite exactly the fields present in the patch; retain all others. -/
def applyPatch (o : Order) (p : OrderPatch) : Order :=
  { id := p.id.getD o.id, sender := p.sender.getD o.sender,
    price := p.price.getD o.price, quantity := p.quantity.getD o.quantity,
    type := p.type.getD o.type, condition := p.condition.getD o.condition,
    now := p.now.getD o.now }

/-- Patch the entry with the given id in place (dict-style update). -/
def patchOrderList (i : Int) (p : OrderPatch) : List Order → List Order
  | [] => []
  | h :: t => if h.id = i then applyPatch h p :: t else h :: patchOrderList i p t

/-- Remove the entry with the given id (dict-style delete). -/
def removeOrder (i : Int) : List Order → List Order
  | [] => []
  | h :: t => if h.id = i then t else h :: removeOrder i t

/-- Modelled from the spec: `addOrder` parses an Order from the nested
`order` payload key and inserts it keyed by id, overwriting silently if the
id already exists (idempotent upsert).  A payload missing the `order` key or
required order fields is a structural mismatch and a silent no-op. -/
def MarketState.addOrder (st : MarketState) (data : Payload) : MarketState :=
  match data.order with
  | none => st
  | some p =>
      match parseOrder p with
      | none => st
      | some o => { st with orders := insertOrder st.orders o }

/-- Modelled from the spec: `updateOrder` parses a partial patch from the
nested `order` key (which must contain the target id); if no live Order has
that id the update is silently ignored, otherwise only the fields present in
the patch are overwritten. -/
def MarketState.updateOrder (st : MarketState) (data : Payload) : MarketState :=
  match data.order with
  | none => st
  | some p =>
      match p.id with
      | none => st
      | some i =>
          match lookupOrder i st.orders with
          | none => st
          | some _ => { st with orders := patchOrderList i p st.orders }

/-- Modelled from the spec: `deleteOrder` removes the Order with the given id
if present; silently ignored if absent. -/
def MarketState.deleteOrder (st : MarketState) (data : Payload) : MarketState :=
  match data.order with
  | none => st
  | some p =>
      match p.id with
      | none => st
      | some i => { st with orders := removeOrder i st.orders }

/-- Parse a Trade directly from the top-level payload: the `from` key gives
the from-participant, `to` the to-participant; `quantity` defaults to 1.0
when absent; `median` is optional. -/
def parseTrade (data : Payload) : Option Trade :=
  match data.fromId, data.toId, data.price, data.condition with
  | some f, some t, some pr, some c =>
      some { from_id := f, to_id := t, price := pr,
             quantity := data.quantity.getD 1, condition := c,
             median := data.median }
  | _, _, _, _ => none

/-- Modelled from the spec: `recordTrade` parses a Trade from the top-level
payload and appends it to the trade list; it never fails (a payload missing
a required key is a structural mismatch and a silent no-op). -/
def MarketState.recordTrade (st : MarketState) (data : Payload) : MarketState :=
  match parseTrade data with
  | none => st
  | some t => { st with trades := st.trades ++ [t] }

/-- Modelled from the spec: the Market Ledger event dispatcher.  It handles
`add-order`, `update-order`, `delete-order` and `contract-fulfilled`; every
other event type is a no-op. -/
def MarketState.process_event (st : MarketState) (event_type : String)
    (data : Payload) : MarketState :=
  if event_type = "add-order" then st.addOrder data
  else if event_type = "update-order" then st.updateOrder data
  else if event_type = "delete-order" then st.deleteOrder data
  else if event_type = "contract-fulfilled" then st.recordTrade data
  else st

/-- Modelled from the spec: all live orders whose sender equals the given
participant id, in ledger (insertion) order. -/
def MarketState.get_orders_from_player (st : MarketState) (pid : Int) : List Order :=
  st.orders.filter fun o => o.sender = pid

/-- Precedence relation of the order-book sort: an earlier line has a price
at least as large (price descending). -/
def priceDescOrd (a b : Order) : Prop := b.price ≤ a.price

instance : DecidableRel priceDescOrd := fun a b =>
  inferInstanceAs (Decidable (b.price ≤ a.price))

instance : IsTotal Order priceDescOrd :=
  ⟨fun a b => (le_total a.price b.price).symm⟩

instance : IsTrans Order priceDescOrd :=
  ⟨fun _ _ _ hab hbc => le_trans hbc hab⟩

/-- Modelled from the spec: the order-book view renders one line per live
order — all `ask` orders first, sorted by price descending, then all `bid`
orders sorted by price descending, ties broken by arrival/insertion order
(Python's `sorted` is stable, as is `List.insertionSort`).  The textual view
joins one rendered line per element of this list; the list of lines is the
object modelled here.  Recomputed on each read, not cached. -/
def MarketState.order_book (st : MarketState) : List Order :=
  (st.orders.filter fun o => o.type = OrderSide.ask).insertionSort priceDescOrd
    ++ (st.orders.filter fun o => o.type = OrderSide.bid).insertionSort priceDescOrd

/-- A chat message record, from
`econagents_ibex_tudelft.core.state.chat.msg` (fields `sender`, `to`,
`number`, `text`, `time`; the recipient list defaults to empty =
broadcast).  The source field `to` is spelled `recipients` here because
`to` is a reserved token in Lean. -/
structure msg where
  sender : Int
  recipients : List Int := []
  number : Option Int := none
  text : String
  time : Option Int := none
deriving DecidableEq, Repr

/-- Modelled from the spec: the Chat Transcript of
`econagents_ibex_tudelft.core.state.chat.ChatState` (the module itself is
not part of the provided sources; its tests are).  It owns the mapping from
message sequence number to message record, modelled like the order mapping
as an insertion-ordered key/value list. -/
structure ChatState where
  messages : List (Int × msg) := []
deriving DecidableEq, Repr

/-- Store a message at its sequence-number key, dict-style: a prior record
with the same key is overwritten in place (last-write-wins). -/
def insertMessage : List (Int × msg) → Int → msg → List (Int × msg)
  | [], k, m => [(k, m)]
  | (k', m') :: t, k, m =>
      if k' = k then (k, m) :: t else (k', m') :: insertMessage t k m

/-- Look up the stored message with the given sequence-number key. -/
def lookupMessage (k : Int) : List (Int × msg) → Option msg
  | [] => none
  | (k', m') :: t => if k' = k then some m' else lookupMessage k t

/-- Modelled from the spec: the Chat Transcript event dispatcher.  On
`message-received` it parses sequence number, sender, optional recipient
list (default empty), text and timestamp from the payload and
stores/overwrites at the sequence-number key; any other event type is a
no-op. -/
def ChatState.process_event (st : ChatState) (event_type : String)
    (data : Payload) : ChatState :=
  if event_type = "message-received" then
    match data.number, data.sender, data.text with
    | some n, some s, some txt =>
        { st with
          messages := insertMessage st.messages n
            { sender := s, recipients := data.recipients.getD [],
              number := some n, text := txt, time := data.time } }
    | _, _, _ => st
  else st

/-- A processed compensation request, from
`examples.voting.state.CompensationRequest` (fields `number` and optional
`compensation`). -/
structure CompensationRequest where
  number : Int
  compensation : Option Int := none
deriving DecidableEq, Repr

/-- One raw item of the `compensation-requests-received` payload: a `number`
and (optionally) an array under the key `compensationRequests`. -/
structure CompItem where
  number : Int
  compensationRequests : Option (List Int) := none
deriving DecidableEq, Repr

/-- The raw payload stored under the event key
`compensation-requests-received`: a JSON object whose `compensationRequests`
key (read with a default of the empty list) holds the raw items. -/
structure RawCompensation where
  compensationRequests : Option (List CompItem) := none
deriving DecidableEq, Repr

/-- The compensation value of a raw item: the element at index 1 of its
`compensationRequests` array when that array has more than one element, else
absent — from `examples.voting.state.VPrivate.compensationRequestsReceived`. -/
def compItemValue (item : CompItem) : Option Int :=
  match item.compensationRequests with
  | some l => if 1 < l.length then l[1]? else none
  | none => none

/-- The sort key used on compensation requests: the compensation value, with
an absent value treated as positive infinity (Python `float("inf")`). -/
def compKey (x : CompensationRequest) : WithTop Int :=
  match x.compensation with
  | none => ⊤
  | some v => (v : WithTop Int)

/-- Ascending order on compensation requests by `compKey`. -/
def compAsc (x y : CompensationRequest) : Prop := compKey x ≤ compKey y

instance : DecidableRel compAsc := fun x y =>
  inferInstanceAs (Decidable (compKey x ≤ compKey y))

instance : IsTotal CompensationRequest compAsc :=
  ⟨fun x y => le_total (compKey x) (compKey y)⟩

instance : IsTrans CompensationRequest compAsc :=
  ⟨fun _ _ _ hxy hyz => le_trans hxy hyz⟩

/-- One private wallet entry per asset condition, with the balance and
shares carried by `asset-movement` events. -/
structure WalletEntry where
  balance : Rat := 0
  shares : Rat := 0
deriving DecidableEq, Repr

/-- A generic string-keyed record standing in for the `dict[str, Any]`
values (conditions, boundaries, declarations, players) whose internal
structure the engine never inspects. -/
abbrev StrDict := List (String × String)

/-- Session metadata section, from `examples.voting.state.VMeta`. -/
structure VMeta where
  game_id : Int := 0
  player_name : Option String := none
  player_number : Option Int := none
  players : List StrDict := []
  phase : Int := 0
deriving DecidableEq, Repr

/-- Private-information section, from `examples.voting.state.VPrivate`. -/
structure VPrivate where
  wallet : List WalletEntry := []
  value_signals : List Rat := []
  declarations : List StrDict := []
  property : StrDict := []
  raw_compensation : RawCompensation := {}
deriving DecidableEq, Repr

/-- The derived compensation-request list of
`examples.voting.state.VPrivate.compensationRequestsReceived`: one request
per raw item, sorted ascending by compensation value via Python's stable
`sorted` with key `float("inf")` for absent values. -/
def VPrivate.compensationRequestsReceived (priv : VPrivate) : List CompensationRequest :=
  ((priv.raw_compensation.compensationRequests.getD []).map fun item =>
      { number := item.number, compensation := compItemValue item }).insertionSort compAsc

/-- Public-information section, from `examples.voting.state.VPublic`. -/
structure VPublic where
  tax_rate : Rat := 0
  initial_tax_rate : Rat := 0
  final_tax_rate : Rat := 0
  boundaries : StrDict := []
  conditions : List StrDict := []
  value_signals : List Rat := []
  market_state : MarketState := {}
  public_signal : List Rat := []
  chat_state : ChatState := {}
  compensationOffers : List (Option Rat) := [none, none]
  winning_condition : Int := 0
deriving DecidableEq, Repr

/-- Python list indexing: a non-negative index is used directly, a negative
index counts from the end, and an out-of-range index has no referent (the
subscript raises `IndexError`). -/
def pyIdx (len : Nat) (i : Int) : Option Nat :=
  if 0 ≤ i then (if i.toNat < len then some i.toNat else none)
  else (if (-i).toNat ≤ len then some (len - (-i).toNat) else none)

/-- Python list read `l[i]`; `none` models `IndexError`. -/
def pyGet {α : Type} (l : List α) (i : Int) : Option α :=
  match pyIdx l.length i with
  | some n => l[n]?
  | none => none

/-- Python in-place update `l[i] = f(l[i])`; `none` models `IndexError`. -/
def pyModify {α : Type} (l : List α) (i : Int) (f : α → α) : Option (List α) :=
  match pyIdx l.length i with
  | some n =>
      match l[n]? with
      | some a => some (l.set n (f a))
      | none => none
  | none => none

/-- The winning-condition description view of
`examples.voting.state.VPublic.winning_condition_description`: the element
of `conditions` at index `winning_condition` when `conditions` is non-empty
(Python truthiness), else the empty mapping. -/
def VPublic.winning_condition_description (pub : VPublic) : Option StrDict :=
  if pub.conditions.isEmpty then some []
  else pyGet pub.conditions pub.winning_condition

/-- The Game State Aggregate, from `examples.voting.state.VGameState`: the
three sections plus the embedded reducers. -/
structure VGameState where
  meta : VMeta := {}
  private_information : VPrivate := {}
  public_information : VPublic := {}
deriving DecidableEq, Repr

/-- The market event types routed to `VGameState._handle_market_event` by
`VGameState.get_custom_handlers`. -/
def market_events : List String :=
  ["add-order", "update-order", "delete-order", "contract-fulfilled", "asset-movement"]

/-- Which custom handler `examples.voting.state.VGameState.get_custom_handlers`
registers for an event type: `market` for the five market event types,
`chat` for `message-received`, none otherwise (generic field routing). -/
inductive HandlerKind where
  | market
  | chat
deriving DecidableEq, Repr

/-- The handler table built by
`examples.voting.state.VGameState.get_custom_handlers`. -/
def VGameState.get_custom_handlers (event_type : String) : Option HandlerKind :=
  if event_type ∈ market_events then some HandlerKind.market
  else if event_type = "message-received" then some HandlerKind.chat
  else none

/-- From `examples.voting.state.VGameState._handle_market_event`: delegate
the event to the embedded MarketState, then, for `asset-movement`, set the
balance and shares of the private wallet entry at the current
winning-condition index from the payload's `balance` and `shares` keys.
`none` models the uncaught `KeyError`/`IndexError` of the wallet update. -/
def VGameState.handle_market_event (st : VGameState) (event_type : String)
    (data : Payload) : Option VGameState :=
  let st1 := { st with
    public_information := { st.public_information with
      market_state := st.public_information.market_state.process_event event_type data } }
  if event_type = "asset-movement" then
    match data.balance, data.shares with
    | some b, some s =>
        match pyModify st1.private_information.wallet
            st1.public_information.winning_condition
            (fun w => { w with balance := b, shares := s }) with
        | some w' =>
            some { st1 with
              private_information := { st1.private_information with wallet := w' } }
        | none => none
    | _, _ => none
  else some st1

/-- From `examples.voting.state.VGameState._handle_chat_event`: delegate the
event to the embedded ChatState. -/
def VGameState.handle_chat_event (st : VGameState) (event_type : String)
    (data : Payload) : VGameState :=
  { st with
    public_information := { st.public_information with
      chat_state := st.public_information.chat_state.process_event event_type data } }

/-- The behaviour bundles of the voting example roles
(`examples.voting.roles.Developer` and `Owner`). -/
inductive VRole where
  | Developer
  | Owner
deriving DecidableEq, Repr

/-- The behaviour bundles of the harberger example roles
(`examples.harberger.roles.Speculator`, `Developer` and `Owner`). -/
inductive HLRole where
  | Speculator
  | Developer
  | Owner
deriving DecidableEq, Repr

/-- The reported configuration error of an invalid role code: the message
written to the logger and the message of the `ValueError` deliberately
raised right after it. -/
structure ConfigError where
  logged : String
  message : String
deriving DecidableEq, Repr

/-- The configuration error produced by both managers for a role code
outside their configured set. -/
def invalidRoleError : ConfigError :=
  { logged := "Invalid role assigned; cannot initialize agent.",
    message := "Invalid role for agent initialization." }

/-- From `examples.voting.manager.VAgentManager._initialize_agent`: role 2
constructs a Developer, role 3 an Owner; any other role code takes the
explicit error branch that logs and raises — a reported configuration
error, not an unchecked exception escaping from elsewhere. -/
def v_init_agent (role : Int) : Except ConfigError VRole :=
  if role = 2 then Except.ok VRole.Developer
  else if role = 3 then Except.ok VRole.Owner
  else Except.error invalidRoleError

/-- From `examples.harberger.manager.HLAgentManager._initialize_agent`:
role 1 constructs a Speculator, role 2 a Developer, role 3 an Owner; any
other role code takes the explicit error branch that logs and raises. -/
def hl_init_agent (role : Int) : Except ConfigError HLRole :=
  if role = 1 then Except.ok HLRole.Speculator
  else if role = 2 then Except.ok HLRole.Developer
  else if role = 3 then Except.ok HLRole.Owner
  else Except.error invalidRoleError

/-! Concrete states and payloads, used to evaluate the theorems below on the
inputs named by the specification's examples. -/

/-- A full add-order patch (bid at 50 from participant 100). -/
def bid50patch : OrderPatch :=
  { id := some 1, sender := some 100, price := some 50, quantity := some 10,
    type := some OrderSide.bid, condition := some 1 }

/-- The order parsed from `bid50patch`. -/
def bid50order : Order :=
  { id := 1, sender := 100, price := 50, quantity := 10,
    type := OrderSide.bid, condition := 1 }

/-- An `add-order` payload carrying `bid50patch`. -/
def addBid50 : Payload := { order := some bid50patch }

/-- A full add-order patch (ask at 60 from participant 200). -/
def ask60patch : OrderPatch :=
  { id := some 2, sender := some 200, price := some 60, quantity := some 5,
    type := some OrderSide.ask, condition := some 1 }

/-- A full add-order patch (bid at 45 from participant 300). -/
def bid45patch : OrderPatch :=
  { id := some 3, sender := some 300, price := some 45, quantity := some 8,
    type := some OrderSide.bid, condition := some 1 }

/-- A full add-order patch (ask at 55 from participant 400). -/
def ask55patch : OrderPatch :=
  { id := some 4, sender := some 400, price := some 55, quantity := some 3,
    type := some OrderSide.ask, condition := some 1 }

/-- The four-order ledger of the specification's order-book example, built
by applying the four `add-order` events in the arrival order of the test:
bid@50, ask@60, bid@45, ask@55. -/
def orderBookExample : MarketState :=
  (((({} : MarketState).process_event "add-order" addBid50).process_event
      "add-order" { order := some ask60patch }).process_event
      "add-order" { order := some bid45patch }).process_event
      "add-order" { order := some ask55patch }

/-- A ledger holding just the bid at 50. -/
def oneOrderLedger : MarketState := { orders := [bid50order] }

/-- A patch updating only the quantity of order 1. -/
def qtyPatch : OrderPatch := { id := some 1, quantity := some 5 }

/-- A `contract-fulfilled` payload with no `quantity` key. -/
def tradeNoQty : Payload :=
  { fromId := some 100, toId := some 200, price := some 50, condition := some 1 }

/-- The first message of the overwrite example:
`{number:1, sender:100, text:"A"}`. -/
def msgA : Payload := { number := some 1, sender := some 100, text := some "A" }

/-- The second message of the overwrite example:
`{number:1, sender:200, text:"B"}`. -/
def msgB : Payload := { number := some 1, sender := some 200, text := some "B" }

/-- The transcript obtained by processing the first overwrite-example
message on the empty transcript. -/
def oneMsgTranscript : ChatState :=
  ({} : ChatState).process_event "message-received" msgA

/-- The message record stored for `msgA`. -/
def msgArec : msg :=
  { sender := 100, recipients := [], number := some 1, text := "A", time := none }

/-- An aggregate with a two-entry wallet whose winning condition is 1. -/
def walletGameState : VGameState :=
  { private_information := { wallet := [{}, {}] },
    public_information := { winning_condition := 1 } }

/-- An `asset-movement` payload carrying balance 5 and shares 3. -/
def assetMove : Payload := { balance := some 5, shares := some 3 }

/-- A public section with an empty conditions list. -/
def emptyCondPub : VPublic := {}

/-- A public section with two conditions and winning-condition index 1. -/
def twoCondPub : VPublic :=
  { conditions := [[("name", "projectFails")], [("name", "projectSucceeds")]],
    winning_condition := 1 }

/-- The aggregate state produced by a successful `asset-movement` dispatch:
the ledger has processed the event and the wallet entry at index `n` holds
the payload's balance and shares. -/
def assetMovementResult (st : VGameState) (data : Payload) (b s : Rat)
    (n : Nat) : VGameState :=
  { st with
    public_information := { st.public_information with
      market_state := st.public_information.market_state.process_event
        "asset-movement" data },
    private_information := { st.private_information with
      wallet := st.private_information.wallet.set n
        { balance := b, shares := s } } }

/-! Helper lemmas about the keyed-list operations that model the Python
insertion-ordered dicts. -/

theorem insertOrder_idem (l : List Order) (o : Order) :
    insertOrder (insertOrder l o) o = insertOrder l o := by
  induction l with
  | nil => simp [insertOrder]
  | cons h t ih =>
    by_cases hid : h.id = o.id
    · simp [insertOrder, hid]
    · simp [insertOrder, hid, ih]

theorem lookupOrder_insertOrder_self (l : List Order) (o : Order) :
    lookupOrder o.id (insertOrder l o) = some o := by
  induction l with
  | nil => simp [insertOrder, lookupOrder]
  | cons h t ih =>
    by_cases hid : h.id = o.id
    · simp [insertOrder, hid, lookupOrder]
    · simp [insertOrder, hid, lookupOrder, ih]

/-- C3: for every role code outside the configured valid set (roles 2 and 3
for the voting manager, roles 1, 2 and 3 for the harberger manager), agent
initialization at role-assignment time returns the explicit reported
configuration error — the logged message plus the deliberately raised
message — rather than an unchecked exception. -/
theorem invalid_role_reports_config_error (role : Int) :
    (role ∉ ([2, 3] : List Int) → v_init_agent role = Except.error invalidRoleError) ∧
    (role ∉ ([1, 2, 3] : List Int) → hl_init_agent role = Except.error invalidRoleError) := by
  constructor
  · intro h
    simp only [List.mem_cons, List.not_mem_nil, or_false, not_or] at h
    simp [v_init_agent, h.1, h.2]
  · intro h
    simp only [List.mem_cons, List.not_mem_nil, or_false, not_or] at h
    simp [hl_init_agent, h.1, h.2.1, h.2.2]

/-- Witness for C3: role code 0 is invalid for both managers and both
initializations report the configuration error. -/
theorem invalid_role_reports_config_error_witness :
    (0 : Int) ∉ ([2, 3] : List Int) ∧ (0 : Int) ∉ ([1, 2, 3] : List Int) ∧
    v_init_agent 0 = Except.error invalidRoleError ∧
    hl_init_agent 0 = Except.error invalidRoleError :=
  ⟨by decide, by decide,
   (invalid_role_reports_config_error 0).1 (by decide),
   (invalid_role_reports_config_error 0).2 (by decide)⟩

/-- C6: applying the same `add-order` payload twice leaves the ledger in the
same state as applying it once, and the parsed order is inserted keyed by
its id (an existing order with that id is silently overwritten, so the
lookup at that id yields exactly the payload's order). -/
theorem add_order_idempotent (st : MarketState) (data : Payload) :
    (st.process_event "add-order" data).process_event "add-order" data
      = st.process_event "add-order" data ∧
    ∀ p o, data.order = some p → parseOrder p = some o →
      lookupOrder o.id (st.process_event "add-order" data).orders = some o := by
  constructor
  · cases hd : data.order with
    | none => simp [MarketState.process_event, MarketState.addOrder, hd]
    | some p =>
      cases hp : parseOrder p with
      | none => simp [MarketState.process_event, MarketState.addOrder, hd, hp]
      | some o =>
        simp [MarketState.process_event, MarketState.addOrder, hd, hp, insertOrder_idem]
  · intro p o hd hp
    simp [MarketState.process_event, MarketState.addOrder, hd, hp,
      lookupOrder_insertOrder_self]

/-- Witness for C6: adding the bid@50 order twice equals adding it once, and
the ledger then holds that order under its id. -/
theorem add_order_idempotent_witness :
    (addBid50.order = some bid50patch ∧ parseOrder bid50patch = some bid50order) ∧
    (({} : MarketState).process_event "add-order" addBid50).process_event
        "add-order" addBid50
      = ({} : MarketState).process_event "add-order" addBid50 ∧
    lookupOrder bid50order.id
        (({} : MarketState).process_event "add-order" addBid50).orders
      = some bid50order :=
  ⟨⟨rfl, rfl⟩, (add_order_idempotent {} addBid50).1,
   (add_order_idempotent {} addBid50).2 bid50patch bid50order rfl rfl⟩

/-- C7: a `contract-fulfilled` payload is parsed into a Trade from the
top-level payload, with the `from` key giving the from-participant and the
`to` key the to-participant; the Trade is appended to the trade list (the
orders are untouched) and the quantity defaults to 1.0 when the payload has
no `quantity` key. -/
theorem contract_fulfilled_appends_trade (st : MarketState) (data : Payload)
    (f t : Int) (pr : Rat) (c : Int)
    (hf : data.fromId = some f) (ht : data.toId = some t)
    (hp : data.price = some pr) (hc : data.condition = some c) :
    (st.process_event "contract-fulfilled" data).trades
      = st.trades ++
          [{ from_id := f, to_id := t, price := pr,
             quantity := data.quantity.getD 1, condition := c,
             median := data.median }] ∧
    (st.process_event "contract-fulfilled" data).orders = st.orders := by
  simp [MarketState.process_event, MarketState.recordTrade, parseTrade,
    hf, ht, hp, hc]

/-- Witness for C7: a `contract-fulfilled` payload with no `quantity` key
yields a Trade with quantity 1. -/
theorem contract_fulfilled_appends_trade_witness :
    (tradeNoQty.fromId = some 100 ∧ tradeNoQty.toId = some 200 ∧
     tradeNoQty.price = some 50 ∧ tradeNoQty.condition = some 1) ∧
    (({} : MarketState).process_event "contract-fulfilled" tradeNoQty).trades
      = [{ from_id := 100, to_id := 200, price := 50, quantity := 1,
           condition := 1, median := none }] ∧
    (({} : MarketState).process_event "contract-fulfilled" tradeNoQty).orders
      = [] := by
  have h := contract_fulfilled_appends_trade {} tradeNoQty 100 200 50 1 rfl rfl rfl rfl
  exact ⟨⟨rfl, rfl, rfl, rfl⟩, by simpa using h.1, h.2⟩

theorem length_insertMessage_of_stored (l : List (Int × msg)) (n : Int)
    (m0 m : msg) (h : lookupMessage n l = some m0) :
    (insertMessage l n m).length = l.length := by
  induction l with
  | nil => simp [lookupMessage] at h
  | cons p t ih =>
    obtain ⟨k', m'⟩ := p
    by_cases hk : k' = n
    · simp [insertMessage, hk]
    · simp only [lookupMessage, hk, ite_false] at h
      simp [insertMessage, hk, ih h]

theorem lookupMessage_insertMessage_self (l : List (Int × msg)) (n : Int)
    (m : msg) : lookupMessage n (insertMessage l n m) = some m := by
  induction l with
  | nil => simp [insertMessage, lookupMessage]
  | cons p t ih =>
    obtain ⟨k', m'⟩ := p
    by_cases hk : k' = n
    · simp [insertMessage, hk, lookupMessage]
    · simp [insertMessage, hk, lookupMessage, ih]

theorem lookupMessage_insertMessage_ne (l : List (Int × msg)) (n k : Int)
    (m : msg) (hk : k ≠ n) :
    lookupMessage k (insertMessage l n m) = lookupMessage k l := by
  have hnk : ¬ n = k := fun h => hk h.symm
  induction l with
  | nil => simp [insertMessage, lookupMessage, hnk]
  | cons p t ih =>
    obtain ⟨k', m'⟩ := p
    by_cases hkn : k' = n
    · simp [insertMessage, hkn, lookupMessage, hnk]
    · by_cases hkk : k' = k
      · simp [insertMessage, hkn, lookupMessage, hkk, hk]
      · simp [insertMessage, hkn, lookupMessage, hkk, ih]

theorem keys_insertMessage_of_stored (l : List (Int × msg)) (n : Int)
    (m0 m : msg) (h : lookupMessage n l = some m0) (idx : Nat) :
    ((insertMessage l n m)[idx]?).map Prod.fst = (l[idx]?).map Prod.fst := by
  induction l generalizing idx with
  | nil => simp [lookupMessage] at h
  | cons p t ih =>
    obtain ⟨k', m'⟩ := p
    by_cases hk : k' = n
    · subst hk
      cases idx with
      | zero => simp [insertMessage]
      | succ j => simp [insertMessage]
    · simp only [lookupMessage, hk, ite_false] at h
      cases idx with
      | zero => simp [insertMessage, hk]
      | succ j => simp [insertMessage, hk, ih h]

/-- C8: for every Chat Transcript state, processing a `message-received`
event whose sequence number is already stored overwrites the prior record
in place (last-write-wins): the number of stored messages is unchanged, the
entry at that sequence number is exactly the new message, every other
sequence number's entry is unchanged, and the key at every storage position
is unchanged (so the record is replaced at its original place); in the
concrete instance, after `{number:1, sender:100, text:"A"}` then
`{number:1, sender:200, text:"B"}`, exactly one stored message exists, with
sender 200 and text "B". -/
theorem message_overwrite_last_write_wins (st : ChatState) (data : Payload)
    (n s : Int) (txt : String) (m0 : msg)
    (hn : data.number = some n) (hs : data.sender = some s)
    (ht : data.text = some txt)
    (hstored : lookupMessage n st.messages = some m0) :
    (st.process_event "message-received" data).messages.length
      = st.messages.length ∧
    lookupMessage n (st.process_event "message-received" data).messages
      = some { sender := s, recipients := data.recipients.getD [],
               number := some n, text := txt, time := data.time } ∧
    (∀ k, k ≠ n →
      lookupMessage k (st.process_event "message-received" data).messages
        = lookupMessage k st.messages) ∧
    (∀ idx : Nat,
      ((st.process_event "message-received" data).messages[idx]?).map Prod.fst
        = (st.messages[idx]?).map Prod.fst) ∧
    ((({} : ChatState).process_event "message-received" msgA).process_event
        "message-received" msgB).messages
      = [(1, { sender := 200, recipients := [], number := some 1,
               text := "B", time := none })] := by
  have hst : st.process_event "message-received" data
      = { st with messages := (insertMessage st.messages n
            { sender := s, recipients := data.recipients.getD [],
              number := some n, text := txt, time := data.time }) } := by
    simp [ChatState.process_event, hn, hs, ht]
  refine ⟨?_, ?_, ?_, ?_, rfl⟩
  · rw [hst]
    exact length_insertMessage_of_stored _ _ m0 _ hstored
  · rw [hst]
    exact lookupMessage_insertMessage_self _ _ _
  · intro k hk
    rw [hst]
    exact lookupMessage_insertMessage_ne _ _ _ _ hk
  · intro idx
    rw [hst]
    exact keys_insertMessage_of_stored _ _ m0 _ hstored idx

/-- Witness for C8: the transcript holding message A at key 1 has that key
overwritten by message B, keeping exactly one stored message. -/
theorem message_overwrite_last_write_wins_witness :
    (msgB.number = some 1 ∧ msgB.sender = some 200 ∧ msgB.text = some "B" ∧
     lookupMessage 1 oneMsgTranscript.messages = some msgArec) ∧
    ((oneMsgTranscript.process_event "message-received" msgB).messages.length
       = oneMsgTranscript.messages.length ∧
     lookupMessage 1 (oneMsgTranscript.process_event "message-received" msgB).messages
       = some { sender := 200, recipients := msgB.recipients.getD [],
                number := some 1, text := "B", time := msgB.time } ∧
     (∀ k, k ≠ (1 : Int) →
       lookupMessage k (oneMsgTranscript.process_event "message-received" msgB).messages
         = lookupMessage k oneMsgTranscript.messages) ∧
     (∀ idx : Nat,
       ((oneMsgTranscript.process_event "message-received" msgB).messages[idx]?).map
           Prod.fst
         = (oneMsgTranscript.messages[idx]?).map Prod.fst) ∧
     ((({} : ChatState).process_event "message-received" msgA).process_event
         "message-received" msgB).messages
       = [(1, { sender := 200, recipients := [], number := some 1,
                text := "B", time := none })]) :=
  ⟨⟨rfl, rfl, rfl, rfl⟩,
   message_overwrite_last_write_wins oneMsgTranscript msgB 1 200 "B" msgArec
     rfl rfl rfl rfl⟩

/-- C9: an event whose type is not handled by the reducer it is passed to is
a no-op and never an error: the Market Ledger is unchanged by any event type
outside its four handled types, and the Chat Transcript is unchanged by any
event type other than `message-received`. -/
theorem unknown_event_is_noop (mst : MarketState) (cst : ChatState)
    (event_type : String) (data : Payload) :
    (event_type ∉ ["add-order", "update-order", "delete-order", "contract-fulfilled"] →
      mst.process_event event_type data = mst) ∧
    (event_type ≠ "message-received" →
      cst.process_event event_type data = cst) := by
  constructor
  · intro h
    simp only [List.mem_cons, List.not_mem_nil, or_false, not_or] at h
    simp [MarketState.process_event, h.1, h.2.1, h.2.2.1, h.2.2.2]
  · intro h
    simp [ChatState.process_event, h]

/-- Witness for C9: the event types of the tests, `unknown-event` and
`other-event`, leave the empty ledger and the empty transcript unchanged. -/
theorem unknown_event_is_noop_witness :
    ("unknown-event" ∉ ["add-order", "update-order", "delete-order", "contract-fulfilled"] ∧
     ({} : MarketState).process_event "unknown-event" {} = {}) ∧
    ("other-event" ≠ "message-received" ∧
     ({} : ChatState).process_event "other-event" {} = {}) :=
  ⟨⟨by decide, (unknown_event_is_noop {} {} "unknown-event" {}).1 (by decide)⟩,
   ⟨by decide, (unknown_event_is_noop {} {} "other-event" {}).2 (by decide)⟩⟩

/-- C10: when the public conditions list is empty the winning-condition
description view is the empty mapping, whatever the winning-condition index;
when the list is non-empty the view is the element of the conditions list at
the winning-condition index. -/
theorem winning_condition_description_view (pub : VPublic) :
    (pub.conditions = [] → pub.winning_condition_description = some []) ∧
    (pub.conditions ≠ [] → 0 ≤ pub.winning_condition →
      pub.winning_condition.toNat < pub.conditions.length →
      pub.winning_condition_description
        = pub.conditions[pub.winning_condition.toNat]?) := by
  constructor
  · intro h
    simp [VPublic.winning_condition_description, h]
  · intro hne h0 hlt
    have hempty : pub.conditions.isEmpty = false := by
      simp [List.isEmpty_iff, hne]
    simp [VPublic.winning_condition_description, hempty, pyGet, pyIdx, h0, hlt]

/-- Witness for C10: the empty-conditions section yields the empty mapping,
and the two-condition section with winning-condition 1 yields the second
condition. -/
theorem winning_condition_description_view_witness :
    (emptyCondPub.conditions = [] ∧
     emptyCondPub.winning_condition_description = some []) ∧
    (twoCondPub.conditions ≠ [] ∧ 0 ≤ twoCondPub.winning_condition ∧
     twoCondPub.winning_condition.toNat < twoCondPub.conditions.length ∧
     twoCondPub.winning_condition_description
       = twoCondPub.conditions[twoCondPub.winning_condition.toNat]?) :=
  ⟨⟨rfl, (winning_condition_description_view emptyCondPub).1 rfl⟩,
   ⟨by decide, by decide, by decide,
    (winning_condition_description_view twoCondPub).2 (by decide) (by decide) (by decide)⟩⟩

theorem length_patchOrderList (i : Int) (p : OrderPatch) (l : List Order) :
    (patchOrderList i p l).length = l.length := by
  induction l with
  | nil => rfl
  | cons h t ih =>
    by_cases hh : h.id = i
    · simp [patchOrderList, hh]
    · simp [patchOrderList, hh, ih]

theorem applyPatch_id (o : Order) (p : OrderPatch) (i : Int) (hid : p.id = some i) :
    (applyPatch o p).id = i := by
  simp [applyPatch, hid]

theorem lookupOrder_patchOrderList_self (i : Int) (p : OrderPatch) (o : Order)
    (hid : p.id = some i) (l : List Order) (ho : lookupOrder i l = some o) :
    lookupOrder i (patchOrderList i p l) = some (applyPatch o p) := by
  induction l with
  | nil => simp [lookupOrder] at ho
  | cons h t ih =>
    by_cases hh : h.id = i
    · simp only [lookupOrder, hh, if_pos, Option.some.injEq] at ho
      subst ho
      simp [patchOrderList, hh, lookupOrder, applyPatch_id h p i hid]
    · simp only [lookupOrder, hh, if_neg, ite_false] at ho
      simp [patchOrderList, hh, lookupOrder, ih ho]

theorem lookupOrder_patchOrderList_ne (i j : Int) (p : OrderPatch)
    (hid : p.id = some i) (hne : j ≠ i) (l : List Order) :
    lookupOrder j (patchOrderList i p l) = lookupOrder j l := by
  induction l with
  | nil => rfl
  | cons h t ih =>
    by_cases hh : h.id = i
    · have hpid : (applyPatch h p).id = i := applyPatch_id h p i hid
      have h1 : ¬ (applyPatch h p).id = j := by
        rw [hpid]; exact fun hc => hne hc.symm
      have h2 : ¬ h.id = j := by
        rw [hh]; exact fun hc => hne hc.symm
      have h3 : ¬ i = j := fun hc => hne hc.symm
      simp [patchOrderList, hh, lookupOrder, h1, h2, h3]
    · simp only [patchOrderList, hh, ite_false, lookupOrder]
      by_cases hj : h.id = j
      · simp [hj]
      · simp [hj, ih]

/-- C5: an `update-order` whose patch targets an id with no live Order is a
silent no-op (the whole ledger state is unchanged, so no creation, no error,
size and entries untouched); when an Order with that id does exist, exactly
the fields present in the patch are overwritten and every field absent from
the patch is retained, the ledger size is unchanged, the trade list is
unchanged, and every other entry is unchanged. -/
theorem update_order_patch_semantics (st : MarketState) (patch : OrderPatch)
    (i : Int) (o : Order) (hid : patch.id = some i) :
    (lookupOrder i st.orders = none →
      st.process_event "update-order" { order := some patch } = st) ∧
    (lookupOrder i st.orders = some o →
      (st.process_event "update-order" { order := some patch }).trades = st.trades ∧
      (st.process_event "update-order" { order := some patch }).orders.length
        = st.orders.length ∧
      lookupOrder i (st.process_event "update-order" { order := some patch }).orders
        = some { id := patch.id.getD o.id, sender := patch.sender.getD o.sender,
                 price := patch.price.getD o.price,
                 quantity := patch.quantity.getD o.quantity,
                 type := patch.type.getD o.type,
                 condition := patch.condition.getD o.condition,
                 now := patch.now.getD o.now } ∧
      ∀ j, j ≠ i →
        lookupOrder j (st.process_event "update-order" { order := some patch }).orders
          = lookupOrder j st.orders) := by
  constructor
  · intro h
    simp [MarketState.process_event, MarketState.updateOrder, hid, h]
  · intro h
    have hst : st.process_event "update-order" { order := some patch }
        = { st with orders := patchOrderList i patch st.orders } := by
      simp [MarketState.process_event, MarketState.updateOrder, hid, h]
    refine ⟨by rw [hst], ?_, ?_, ?_⟩
    · rw [hst]
      exact length_patchOrderList i patch st.orders
    · rw [hst]
      show lookupOrder i (patchOrderList i patch st.orders) = _
      rw [lookupOrder_patchOrderList_self i patch o hid st.orders h]
      rfl
    · intro j hj
      rw [hst]
      show lookupOrder j (patchOrderList i patch st.orders) = _
      exact lookupOrder_patchOrderList_ne i j patch hid hj st.orders

/-- Witness for C5: updating non-existent id 1 on the empty ledger is a
no-op, and updating only the quantity of the bid@50 order keeps price,
sender and all other fields while setting the quantity to 5. -/
theorem update_order_patch_semantics_witness :
    (qtyPatch.id = some 1 ∧ lookupOrder 1 ({} : MarketState).orders = none ∧
      ({} : MarketState).process_event "update-order" { order := some qtyPatch } = {}) ∧
    (lookupOrder 1 oneOrderLedger.orders = some bid50order ∧
      (oneOrderLedger.process_event "update-order" { order := some qtyPatch }).trades
        = oneOrderLedger.trades ∧
      lookupOrder 1
          (oneOrderLedger.process_event "update-order" { order := some qtyPatch }).orders
        = some { id := qtyPatch.id.getD bid50order.id,
                 sender := qtyPatch.sender.getD bid50order.sender,
                 price := qtyPatch.price.getD bid50order.price,
                 quantity := qtyPatch.quantity.getD bid50order.quantity,
                 type := qtyPatch.type.getD bid50order.type,
                 condition := qtyPatch.condition.getD bid50order.condition,
                 now := qtyPatch.now.getD bid50order.now }) :=
  ⟨⟨rfl, rfl, (update_order_patch_semantics {} qtyPatch 1 bid50order rfl).1 rfl⟩,
   ⟨rfl,
    ((update_order_patch_semantics oneOrderLedger qtyPatch 1 bid50order rfl).2 rfl).1,
    ((update_order_patch_semantics oneOrderLedger qtyPatch 1 bid50order rfl).2 rfl).2.2.1⟩⟩

/-- C2: an `asset-movement` event dispatched to the aggregate is registered
with the market handler; that handler first routes the event to the embedded
Market Ledger and afterwards sets the balance and shares of the private
wallet entry at the current winning-condition index to the payload's
`balance` and `shares` values, leaving every other wallet entry (and the
wallet length) unchanged. -/
theorem asset_movement_updates_wallet (st : VGameState) (data : Payload)
    (b s : Rat) (n : Nat)
    (hb : data.balance = some b) (hs : data.shares = some s)
    (hwc : st.public_information.winning_condition = (n : Int))
    (hn : n < st.private_information.wallet.length) :
    VGameState.get_custom_handlers "asset-movement" = some HandlerKind.market ∧
    ∃ st', st.handle_market_event "asset-movement" data = some st' ∧
      st'.public_information.market_state
        = st.public_information.market_state.process_event "asset-movement" data ∧
      st'.private_information.wallet[n]? = some { balance := b, shares := s } ∧
      (∀ j, j ≠ n →
        st'.private_information.wallet[j]? = st.private_information.wallet[j]?) ∧
      st'.private_information.wallet.length
        = st.private_information.wallet.length := by
  constructor
  · rfl
  · have hidx : pyIdx st.private_information.wallet.length
        st.public_information.winning_condition = some n := by
      rw [hwc]
      simp [pyIdx, hn]
    have hget : st.private_information.wallet[n]?
        = some st.private_information.wallet[n] :=
      List.getElem?_eq_getElem hn
    refine ⟨assetMovementResult st data b s n, ?_, rfl, ?_, ?_, ?_⟩
    · simp only [VGameState.handle_market_event, hb, hs, pyModify, hidx, hget,
        assetMovementResult]
      rfl
    · show (st.private_information.wallet.set n
          { balance := b, shares := s })[n]? = _
      exact List.getElem?_set_eq_of_lt _ hn
    · intro j hj
      show (st.private_information.wallet.set n
          { balance := b, shares := s })[j]? = _
      exact List.getElem?_set_ne fun hc => hj hc.symm
    · show (st.private_information.wallet.set n
          { balance := b, shares := s }).length = _
      exact List.length_set _ _ _

/-- Witness for C2: on an aggregate with a two-entry wallet and winning
condition 1, an `asset-movement` with balance 5 and shares 3 updates exactly
entry 1. -/
theorem asset_movement_updates_wallet_witness :
    VGameState.get_custom_handlers "asset-movement" = some HandlerKind.market ∧
    ∃ st', walletGameState.handle_market_event "asset-movement" assetMove = some st' ∧
      st'.public_information.market_state
        = walletGameState.public_information.market_state.process_event
            "asset-movement" assetMove ∧
      st'.private_information.wallet[1]? = some { balance := 5, shares := 3 } ∧
      (∀ j, j ≠ 1 →
        st'.private_information.wallet[j]?
          = walletGameState.private_information.wallet[j]?) ∧
      st'.private_information.wallet.length
        = walletGameState.private_information.wallet.length :=
  asset_movement_updates_wallet walletGameState assetMove 5 3 1 rfl rfl rfl (by decide)

theorem compAsc_none (x y : CompensationRequest) (h : compAsc x y)
    (hx : x.compensation = none) : y.compensation = none := by
  have hkx : compKey x = ⊤ := by simp [compKey, hx]
  have hky : compKey y = ⊤ := top_le_iff.mp (hkx ▸ h)
  cases hy : y.compensation with
  | none => rfl
  | some v =>
    rw [compKey] at hky
    rw [hy] at hky
    exact absurd hky (WithTop.coe_ne_top)

/-- C1: the derived compensation-request list is a permutation of one
request per raw item — the request's compensation being the element at index
1 of the item's `compensationRequests` array when that array has more than
one element and absent otherwise — and it is sorted ascending by
compensation value with absent values treated as positive infinity, so
requests with absent values appear last (every request after one with an
absent value also has an absent value). -/
theorem compensation_requests_ranking (priv : VPrivate) :
    priv.compensationRequestsReceived.Perm
      ((priv.raw_compensation.compensationRequests.getD []).map fun item =>
        { number := item.number, compensation := compItemValue item }) ∧
    priv.compensationRequestsReceived.Pairwise compAsc ∧
    priv.compensationRequestsReceived.Pairwise
      (fun x y => x.compensation = none → y.compensation = none) := by
  refine ⟨List.perm_insertionSort compAsc _, List.sorted_insertionSort compAsc _, ?_⟩
  exact (List.sorted_insertionSort compAsc _).imp fun h hx => compAsc_none _ _ h hx

theorem filter_price_insertionSort (l : List Order) (p : Rat) :
    (l.insertionSort priceDescOrd).filter (fun o => o.price = p)
      = l.filter (fun o => o.price = p) := by
  have hpair : (l.filter (fun o => o.price = p)).Pairwise priceDescOrd := by
    refine List.pairwise_of_forall_mem_list ?_
    intro a ha b hb
    have ha2 : a.price = p := by simpa using (List.mem_filter.mp ha).2
    have hb2 : b.price = p := by simpa using (List.mem_filter.mp hb).2
    rw [priceDescOrd, ha2, hb2]
  have hsub : (l.filter (fun o => o.price = p)).Sublist
      (l.insertionSort priceDescOrd) :=
    List.sublist_insertionSort hpair (List.filter_sublist l)
  have hsub2 := List.Sublist.filter (fun o => decide (o.price = p)) hsub
  have hself : (l.filter (fun o => o.price = p)).filter (fun o => o.price = p)
      = l.filter (fun o => o.price = p) := by
    rw [List.filter_eq_self]
    intro a ha
    exact (List.mem_filter.mp ha).2
  rw [hself] at hsub2
  have hperm : ((l.insertionSort priceDescOrd).filter (fun o => o.price = p)).Perm
      (l.filter (fun o => o.price = p)) :=
    (List.perm_insertionSort priceDescOrd l).filter _
  exact (hsub2.eq_of_length hperm.length_eq.symm).symm

/-- C4: the order-book view has one line per live order (it is a permutation
of the live orders); it decomposes as the ask block followed by the bid
block, each block a permutation of the corresponding live orders sorted by
price descending, with ties broken by arrival order (within each block the
orders of any fixed price appear exactly in ledger order); and on the
example ledger {ask@60, ask@55, bid@50, bid@45} the rendered lines carry the
prices 60, 55, 50, 45 in that order. -/
theorem order_book_view (st : MarketState) :
    st.order_book.Perm st.orders ∧
    (∃ A B, st.order_book = A ++ B ∧
      A.Perm (st.orders.filter fun o => o.type = OrderSide.ask) ∧
      B.Perm (st.orders.filter fun o => o.type = OrderSide.bid) ∧
      A.Pairwise priceDescOrd ∧ B.Pairwise priceDescOrd ∧
      (∀ p : Rat, A.filter (fun o => o.price = p)
        = (st.orders.filter fun o => o.type = OrderSide.ask).filter
            (fun o => o.price = p)) ∧
      (∀ p : Rat, B.filter (fun o => o.price = p)
        = (st.orders.filter fun o => o.type = OrderSide.bid).filter
            (fun o => o.price = p))) ∧
    orderBookExample.order_book.map (fun o => o.price) = [60, 55, 50, 45] := by
  refine ⟨?_,
    ⟨(st.orders.filter fun o => o.type = OrderSide.ask).insertionSort priceDescOrd,
     (st.orders.filter fun o => o.type = OrderSide.bid).insertionSort priceDescOrd,
     ?_, List.perm_insertionSort _ _, List.perm_insertionSort _ _,
     List.sorted_insertionSort _ _, List.sorted_insertionSort _ _,
     fun p => filter_price_insertionSort _ p,
     fun p => filter_price_insertionSort _ p⟩, ?_⟩
  · have hbid : st.orders.filter (fun o => o.type = OrderSide.bid)
        = st.orders.filter (fun o => !(decide (o.type = OrderSide.ask))) := by
      apply List.filter_congr
      intro x _
      cases hxt : x.type <;> simp [hxt]
    have hperm2 : (st.orders.filter (fun o => o.type = OrderSide.ask)
          ++ st.orders.filter (fun o => o.type = OrderSide.bid)).Perm st.orders := by
      rw [hbid]
      exact List.filter_append_perm _ st.orders
    exact ((List.perm_insertionSort _ _).append (List.perm_insertionSort _ _)).trans hperm2
  · rfl
  · decide
